import Mathlib

/-
Verification of the scaffolding engine of create_woragis_backend.

The Rust program (src/main.rs) is embedded shallowly:
  - the filesystem is a finite tree of named nodes (files with byte content,
    directories with entry lists), rooted at the current working directory;
  - the recursive copy routine copy_dir_all, the overlay composition rule
    (with_infra forces with_ci), the existence guard and the orchestration
    of main are translated definition by definition;
  - machine behavior such as process exit, expect panics and the
    Path::to_str().unwrap() panic on non UTF-8 names is made explicit in
    the result types.
-/

/-- A filesystem name component. The field `utf8` records whether the
OS-level name is valid UTF-8, which decides whether conversion of the
path to a Rust string (`Path::to_str`) succeeds on it. CLI arguments are
Rust strings, hence always valid UTF-8. -/
structure Name where
  s : String
  utf8 : Bool
deriving DecidableEq, Repr

/-- A path is a list of name components, relative to the working directory. -/
abbrev FPath := List Name

/-- A filesystem tree: a file with byte content, or a directory with a list
of named entries. -/
inductive FsTree where
  | file (content : List Nat)
  | dir (entries : List (Name × FsTree))

/-- The entry list of a directory; the whole filesystem state is the entry
list of the working directory. -/
abbrev Entries := List (Name × FsTree)

/-- Look up the entry of a directory by name. -/
def Entries.find : Entries → Name → Option FsTree
  | [], _ => none
  | (m, t) :: es, n => if m = n then some t else Entries.find es n

/-- Replace the entry of the given name, or append it when absent. -/
def Entries.set : Entries → Name → FsTree → Entries
  | [], n, t => [(n, t)]
  | (m, u) :: es, n, t => if m = n then (n, t) :: es else (m, u) :: Entries.set es n t

/-- Follow a path down a tree. -/
def walk : FPath → FsTree → Option FsTree
  | [], t => some t
  | n :: rest, FsTree.dir es => (Entries.find es n).bind (walk rest)
  | _ :: _, FsTree.file _ => none

/-- Look up the node at a path of the filesystem (`Path::exists` is
`(walkFs fs p).isSome`, `Path::is_dir` tests for a `dir` node). -/
def walkFs (fs : Entries) (p : FPath) : Option FsTree := walk p (FsTree.dir fs)

/-- Model of `std::fs::create_dir_all`: create the directory at the path together
with all missing ancestors; fails (returning `none`) when a file occupies
one of the components. Existing directories are left as they are, so on
failure nothing has been created (every component before a blocking file
already existed). -/
def createDirAll : FPath → Entries → Option Entries
  | [], fs => some fs
  | n :: rest, fs =>
    match Entries.find fs n with
    | some (FsTree.file _) => none
    | some (FsTree.dir sub) => (createDirAll rest sub).map (fun s => Entries.set fs n (FsTree.dir s))
    | none => (createDirAll rest []).map (fun s => fs ++ [(n, FsTree.dir s)])

/-- Model of `std::fs::create_dir`: create exactly the final directory; fails when
the path already exists or the parent chain is missing or not directories. -/
def createDir : FPath → Entries → Option Entries
  | [], _ => none
  | n :: rest, fs =>
    match rest with
    | [] =>
      match Entries.find fs n with
      | some _ => none
      | none => some (fs ++ [(n, FsTree.dir [])])
    | _ :: _ =>
      match Entries.find fs n with
      | some (FsTree.dir sub) => (createDir rest sub).map (fun s => Entries.set fs n (FsTree.dir s))
      | _ => none

/-- Overwrite the node at a path (parents are assumed to exist, as they do
at every use site; a missing parent chain leaves the tree unchanged).
Setting the empty path replaces the whole working directory content when
the new node is a directory. -/
def setNode : FPath → FsTree → Entries → Entries
  | [], t, fs =>
    match t with
    | FsTree.dir es => es
    | FsTree.file _ => fs
  | n :: rest, t, fs =>
    match rest with
    | [] => Entries.set fs n t
    | _ :: _ =>
      match Entries.find fs n with
      | some (FsTree.dir sub) => Entries.set fs n (FsTree.dir (setNode rest t sub))
      | _ => fs

/-- The two io::Error flavors the copy routine distinguishes: `read_dir`
failing because the source is missing or not a directory (the SourceNotFound
of the spec), and every other filesystem failure. -/
inductive IoKind where
  | sourceNotFound
  | ioOther
deriving DecidableEq, Repr

/-- Result of one `copy_dir_all` call: success, an io::Error returned with
`?`, or a panic of `path.to_str().unwrap()` on a non UTF-8 directory name. -/
inductive CopyResult where
  | ok
  | ioErr (k : IoKind)
  | panicked
deriving DecidableEq, Repr

mutual

/-- The entry loop of `copy_dir_all` (`for entry in fs::read_dir(src)`),
acting on the entry list of the destination directory. The source entry
list is the snapshot read from the filesystem; source and destination are
disjoint at every call site of the program, so reading the snapshot up
front is faithful. -/
def copyEntries : List (Name × FsTree) → Entries → CopyResult × Entries
  | [], d => (CopyResult.ok, d)
  | (n, t) :: rest, d =>
    match copyEntry n t d with
    | (CopyResult.ok, d2) => copyEntries rest d2
    | bad => bad

/-- One iteration of the `copy_dir_all` loop body for the entry named `n`
with snapshot `t`, writing into destination entry list `d`:
  - directory entry: `path.to_str().unwrap()` panics unless `n` is valid
    UTF-8; then the recursive `copy_dir_all` call runs `create_dir_all` on
    the destination child (an error when a file of that name is already
    there) and recurses into the subdirectory;
  - file entry: `create_dir_all` on the parent is a no-op (the destination
    directory exists), then `fs::copy` overwrites a file or creates one,
    and fails when a directory of that name is already there. -/
def copyEntry : Name → FsTree → Entries → CopyResult × Entries
  | n, FsTree.file c, d =>
    match Entries.find d n with
    | some (FsTree.dir _) => (CopyResult.ioErr IoKind.ioOther, d)
    | _ => (CopyResult.ok, Entries.set d n (FsTree.file c))
  | n, FsTree.dir sub, d =>
    if n.utf8 then
      match Entries.find d n with
      | some (FsTree.file _) => (CopyResult.ioErr IoKind.ioOther, d)
      | some (FsTree.dir dsub) =>
        match copyEntries sub dsub with
        | (r, dsub2) => (r, Entries.set d n (FsTree.dir dsub2))
      | none =>
        match copyEntries sub [] with
        | (r, dsub2) => (r, Entries.set d n (FsTree.dir dsub2))
    else (CopyResult.panicked, d)

end

/-- The function `copy_dir_all(src, dst)` of src/main.rs: first `fs::create_dir_all(dst)`,
then `fs::read_dir(src)` (failing when the source is missing or not a
directory), then the entry loop writing into the subtree at `dst`. The
state returned with an error is the state reached so far: nothing is
rolled back. -/
def copy_dir_all (src dst : FPath) (fs : Entries) : CopyResult × Entries :=
  match createDirAll dst fs with
  | none => (CopyResult.ioErr IoKind.ioOther, fs)
  | some fs1 =>
    match walkFs fs1 src with
    | some (FsTree.dir srcEntries) =>
      match walkFs fs1 dst with
      | some (FsTree.dir d) =>
        match copyEntries srcEntries d with
        | (r, d2) => (r, setNode dst (FsTree.dir d2) fs1)
      | _ => (CopyResult.ioErr IoKind.ioOther, fs1)
    | _ => (CopyResult.ioErr IoKind.sourceNotFound, fs1)

/-- The overlay composition rule of main (lines 30 to 32): passing
`--with-infra` automatically enables `--with-ci`. Output is the pair of
effective flags (effectiveCi, effectiveInfra). -/
def composeOverlays (with_ci with_infra : Bool) : Bool × Bool :=
  ((if with_infra then true else with_ci), with_infra)

/-- The parsed CLI arguments (struct Cli of src/main.rs). -/
structure Cli where
  name : String
  template : String
  with_ci : Bool
  with_infra : Bool

/-- Shorthand for a valid UTF-8 name, as produced from Rust strings. -/
def nm (s : String) : Name := { s := s, utf8 := true }

def templatesDir : Name := nm "templates"
def extrasDir : Name := nm "extras"
def githubDir : Name := nm ".github"
def terraformDir : Name := nm "terraform"

/-- How the process of src/main.rs ends: normal success (exit code 0, the
success summary reporting the template and the effective overlay flags),
the guard path (eprintln plus `process::exit(1)`), or a panic from
`.expect` or from `unwrap` (abnormal nonzero exit). -/
inductive MainOutcome where
  | ok (template : String) (ci infra : Bool)
  | alreadyExists (exitCode : Nat)
  | panicked (msg : String)
deriving DecidableEq, Repr

/-- The message of the `unwrap` panic on a non UTF-8 path. -/
def unwrapPanicMsg : String := "called Option.unwrap on a None value"

/-- The `.expect(msg)` call applied to the result of a `copy_dir_all` call that did
not succeed: a panic inside the call keeps the unwrap message, an io error
panics with the expect message. -/
def expectOr (msg : String) (r : CopyResult) : MainOutcome :=
  match r with
  | CopyResult.panicked => MainOutcome.panicked unwrapPanicMsg
  | _ => MainOutcome.panicked msg

/-- The whole of `fn main` (src/main.rs lines 26 to 67), from parsed
arguments and working directory state to the process outcome and the final
filesystem state: compose the overlay flags, guard on the existence of the
project directory, `fs::create_dir` it, copy the base template, then the
CI overlay into `.github` when effective with_ci holds, then the
infrastructure overlay into `terraform` when with_infra holds. -/
def mainRun (args : Cli) (fs : Entries) : MainOutcome × Entries :=
  let eff := composeOverlays args.with_ci args.with_infra
  let project_dir : FPath := [nm args.name]
  if (walkFs fs project_dir).isSome then
    (MainOutcome.alreadyExists 1, fs)
  else
    match createDir project_dir fs with
    | none => (MainOutcome.panicked "Failed to create project directory", fs)
    | some fs1 =>
      match copy_dir_all [templatesDir, nm args.template] project_dir fs1 with
      | (CopyResult.ok, fs2) =>
        match (if eff.1 then
                 copy_dir_all [extrasDir, githubDir] (project_dir ++ [githubDir]) fs2
               else (CopyResult.ok, fs2)) with
        | (CopyResult.ok, fs3) =>
          match (if eff.2 then
                   copy_dir_all [extrasDir, terraformDir] (project_dir ++ [terraformDir]) fs3
                 else (CopyResult.ok, fs3)) with
          | (CopyResult.ok, fs4) => (MainOutcome.ok args.template eff.1 eff.2, fs4)
          | (r, fs4) => (expectOr "Failed to copy infra setup" r, fs4)
        | (r, fs3) => (expectOr "Failed to copy CI configs" r, fs3)
      | (r, fs2) => (expectOr "Failed to copy template" r, fs2)

/-- The ordered overlay materialization tasks of a scaffold run, derived
from the effective flags as section 4.4 of the spec describes them: the CI
overlay into the fixed `.github` subdirectory first, then the
infrastructure overlay into the fixed `terraform` subdirectory. -/
def overlayTasks (name : String) (ci infra : Bool) : List (FPath × FPath) :=
  (if ci then [([extrasDir, githubDir], [nm name, githubDir])] else []) ++
    (if infra then [([extrasDir, terraformDir], [nm name, terraformDir])] else [])

/-- The full ordered task list of a scaffold run: the base template into
the project root, then the overlay tasks. -/
def scaffoldTasks (args : Cli) : List (FPath × FPath) :=
  ([templatesDir, nm args.template], [nm args.name]) ::
    overlayTasks args.name (composeOverlays args.with_ci args.with_infra).1
      (composeOverlays args.with_ci args.with_infra).2

/-- Run materialization tasks in order, aborting on the first failure. -/
def runTasks : List (FPath × FPath) → Entries → CopyResult × Entries
  | [], fs => (CopyResult.ok, fs)
  | (s, d) :: rest, fs =>
    match copy_dir_all s d fs with
    | (CopyResult.ok, fs1) => runTasks rest fs1
    | bad => bad

mutual

/-- Invariant of trees read from a real filesystem: entry names within one
directory are distinct, recursively. -/
def nodupT : FsTree → Bool
  | FsTree.file _ => true
  | FsTree.dir es => nodupE es

def nodupE : List (Name × FsTree) → Bool
  | [] => true
  | (n, t) :: rest => (Entries.find rest n).isNone && nodupT t && nodupE rest

end

mutual

/-- All names in the tree, of files and directories alike, are valid UTF-8. -/
def allUtf8T : FsTree → Bool
  | FsTree.file _ => true
  | FsTree.dir es => allUtf8E es

def allUtf8E : List (Name × FsTree) → Bool
  | [] => true
  | (n, t) :: rest => n.utf8 && allUtf8T t && allUtf8E rest

end

mutual

/-- All names of directory entries in the tree are valid UTF-8 (file names
are unconstrained): exactly the names `copy_dir_all` converts with
`to_str().unwrap()`. -/
def dirsUtf8T : FsTree → Bool
  | FsTree.file _ => true
  | FsTree.dir es => dirsUtf8E es

def dirsUtf8E : List (Name × FsTree) → Bool
  | [] => true
  | (n, t) :: rest =>
    (match t with
     | FsTree.dir _ => n.utf8
     | FsTree.file _ => true) && dirsUtf8T t && dirsUtf8E rest

end

/-- Well-formed tree: distinct names and UTF-8 directory names. -/
def wfT (t : FsTree) : Bool := nodupT t && dirsUtf8T t

/-- Boolean path prefix test, used to state frame properties. -/
def prefixOf : FPath → FPath → Bool
  | [], _ => true
  | _ :: _, [] => false
  | a :: p, b :: q => if a = b then prefixOf p q else false

/-- A small base template tree used for concrete runs. -/
def demoTemplate : Entries :=
  [(nm "Cargo.toml", FsTree.file [10, 20]),
   (nm "src", FsTree.dir [(nm "main.rs", FsTree.file [30, 40])])]

/-- A small CI overlay tree. -/
def demoCi : Entries := [(nm "workflows", FsTree.dir [(nm "ci.yml", FsTree.file [1])])]

/-- A small infrastructure overlay tree. -/
def demoInfra : Entries := [(nm "main.tf", FsTree.file [2])]

/-- A working directory holding the templates root with the `rest` template
and both overlay sources, as the filesystem layout convention expects. -/
def demoFs : Entries :=
  [(templatesDir, FsTree.dir [(nm "rest", FsTree.dir demoTemplate)]),
   (extrasDir, FsTree.dir [(githubDir, FsTree.dir demoCi),
                           (terraformDir, FsTree.dir demoInfra)])]

/-- A working directory whose only template carries a top-level `.github`
directory of its own. -/
def evilFs : Entries :=
  [(templatesDir, FsTree.dir
      [(nm "evil", FsTree.dir
          [(githubDir, FsTree.dir [(nm "ci.yml", FsTree.file [7])])])])]

/-- A working directory with a source tree whose single entry is a file
with a non UTF-8 name. -/
def badFileFs : Entries :=
  [(nm "src0", FsTree.dir [({ s := "x", utf8 := false }, FsTree.file [9])])]

/-- A working directory with a source tree whose single entry is a
directory with a non UTF-8 name. -/
def badDirFs : Entries :=
  [(nm "src1", FsTree.dir [({ s := "y", utf8 := false }, FsTree.dir [])])]

/-- Arguments of a run enabling only the infrastructure flag. -/
def cliInfraOnly : Cli :=
  { name := "svc", template := "rest", with_ci := false, with_infra := true }

/-- Arguments whose project name collides with an existing entry. -/
def cliCollide : Cli :=
  { name := "extras", template := "rest", with_ci := false, with_infra := false }

/-- Arguments naming a template that does not exist. -/
def cliNoTemplate : Cli :=
  { name := "myapp", template := "nonexistent", with_ci := false, with_infra := false }

/-- Arguments of a plain scaffold run, no overlays. -/
def cliPlain : Cli :=
  { name := "myapp", template := "rest", with_ci := false, with_infra := false }

/-- Arguments scaffolding from the template that carries its own `.github`. -/
def cliEvil : Cli :=
  { name := "myapp", template := "evil", with_ci := false, with_infra := false }

/-- Arguments of a run with both overlay flags enabled. -/
def cliBoth : Cli :=
  { name := "app2", template := "rest", with_ci := true, with_infra := true }

theorem find_set (d : Entries) (n m : Name) (t : FsTree) :
    Entries.find (Entries.set d n t) m = if m = n then some t else Entries.find d m := by
  induction d with
  | nil =>
    by_cases h : m = n
    · subst h; simp [Entries.set, Entries.find]
    · have h2 : ¬n = m := fun hh => h hh.symm
      simp [Entries.set, Entries.find, h, h2]
  | cons e es ih =>
    obtain ⟨p, u⟩ := e
    by_cases hpn : p = n
    · subst hpn
      by_cases h : m = p
      · subst h; simp [Entries.set, Entries.find]
      · have h2 : ¬p = m := fun hh => h hh.symm
        simp [Entries.set, Entries.find, h, h2]
    · by_cases h : m = p
      · subst h
        simp [Entries.set, Entries.find, hpn]
      · have h2 : ¬p = m := fun hh => h hh.symm
        simp [Entries.set, Entries.find, hpn, h2, ih]

theorem find_append (d e : Entries) (m : Name) :
    Entries.find (d ++ e) m =
      match Entries.find d m with
      | some t => some t
      | none => Entries.find e m := by
  induction d with
  | nil => simp [Entries.find]
  | cons x xs ih =>
    obtain ⟨p, u⟩ := x
    by_cases h : p = m
    · subst h; simp [Entries.find]
    · simp [Entries.find, h, ih]

theorem set_absent (d : Entries) (n : Name) (t : FsTree)
    (h : Entries.find d n = none) : Entries.set d n t = d ++ [(n, t)] := by
  induction d with
  | nil => simp [Entries.set]
  | cons x xs ih =>
    obtain ⟨p, u⟩ := x
    by_cases hpn : p = n
    · subst hpn; simp [Entries.find] at h
    · simp [Entries.find, hpn] at h
      simp [Entries.set, hpn, ih h]

theorem set_present (d : Entries) (n : Name) (t : FsTree)
    (h : Entries.find d n = some t) : Entries.set d n t = d := by
  induction d with
  | nil => simp [Entries.find] at h
  | cons x xs ih =>
    obtain ⟨p, u⟩ := x
    by_cases hpn : p = n
    · subst hpn
      simp [Entries.find] at h
      simp [Entries.set, h]
    · simp [Entries.find, hpn] at h
      simp [Entries.set, hpn, ih h]

theorem find_none_ne (l : Entries) (n : Name) (h : Entries.find l n = none) :
    ∀ e ∈ l, e.1 ≠ n := by
  induction l with
  | nil => intro e he; cases he
  | cons x xs ih =>
    obtain ⟨p, u⟩ := x
    by_cases hpn : p = n
    · subst hpn; simp [Entries.find] at h
    · simp [Entries.find, hpn] at h
      intro e he
      rcases List.mem_cons.mp he with h1 | h2
      · subst h1; exact hpn
      · exact ih h e h2

theorem walk_append (p q : FPath) (t : FsTree) :
    walk (p ++ q) t = (walk p t).bind (walk q) := by
  induction p generalizing t with
  | nil => simp [walk]
  | cons n rest ih =>
    cases t with
    | file c => simp [walk]
    | dir es =>
      simp [walk]
      cases Entries.find es n with
      | none => simp
      | some u => simp [ih]

theorem createDirAll_of_dir (p : FPath) (fs : Entries) (d : Entries)
    (h : walkFs fs p = some (FsTree.dir d)) : createDirAll p fs = some fs := by
  induction p generalizing fs d with
  | nil => rfl
  | cons n rest ih =>
    simp only [walkFs, walk] at h
    cases hf : Entries.find fs n with
    | none => rw [hf] at h; simp at h
    | some t =>
      rw [hf] at h
      simp only [Option.some_bind] at h
      cases t with
      | file c =>
        cases rest with
        | nil => simp [walk] at h
        | cons m ms => simp [walk] at h
      | dir sub =>
        have hrec := ih sub d (by simpa [walkFs] using h)
        simp [createDirAll, hf, hrec, set_present fs n (FsTree.dir sub) hf]

theorem createDirAll_makes (p : FPath) (fs fs2 : Entries)
    (h : createDirAll p fs = some fs2) :
    ∃ d, walkFs fs2 p = some (FsTree.dir d) ∧ (walkFs fs p = none → d = []) := by
  induction p generalizing fs fs2 with
  | nil =>
    simp only [createDirAll, Option.some.injEq] at h
    subst h
    exact ⟨fs, rfl, by intro hc; simp [walkFs, walk] at hc⟩
  | cons n rest ih =>
    cases hf : Entries.find fs n with
    | some t =>
      cases t with
      | file c => simp [createDirAll, hf] at h
      | dir sub =>
        simp only [createDirAll, hf] at h
        cases hc : createDirAll rest sub with
        | none => rw [hc] at h; simp at h
        | some sub2 =>
          rw [hc] at h
          simp at h
          obtain ⟨d, hd, hde⟩ := ih sub sub2 hc
          refine ⟨d, ?_, ?_⟩
          · subst h
            simp only [walkFs, walk, find_set, if_pos rfl, Option.some_bind]
            simpa [walkFs] using hd
          · intro hnone
            apply hde
            simpa [walkFs, walk, hf] using hnone
    | none =>
      simp only [createDirAll, hf] at h
      cases hc : createDirAll rest [] with
      | none => rw [hc] at h; simp at h
      | some sub2 =>
        rw [hc] at h
        simp at h
        obtain ⟨d, hd, hde⟩ := ih [] sub2 hc
        refine ⟨d, ?_, fun _ => ?_⟩
        · subst h
          have hfind : Entries.find (fs ++ [(n, FsTree.dir sub2)]) n
              = some (FsTree.dir sub2) := by
            rw [find_append, hf]
            simp [Entries.find]
          simp only [walkFs, walk, hfind, Option.some_bind]
          simpa [walkFs] using hd
        · cases rest with
          | nil =>
            simp only [createDirAll, Option.some.injEq] at hc
            subst hc
            simp only [walkFs, walk, Option.some.injEq] at hd
            cases hd
            rfl
          | cons m ms => exact hde (by simp [walkFs, walk, Entries.find])

theorem createDirAll_frame (p : FPath) (fs fs2 : Entries) (q : FPath)
    (h : createDirAll p fs = some fs2)
    (h1 : prefixOf q p = false) (h2 : prefixOf p q = false) :
    walkFs fs2 q = walkFs fs q := by
  induction p generalizing fs fs2 q with
  | nil =>
    simp only [createDirAll, Option.some.injEq] at h
    subst h
    rfl
  | cons n rest ih =>
    cases q with
    | nil => simp [prefixOf] at h1
    | cons m qrest =>
      cases hf : Entries.find fs n with
      | some t =>
        cases t with
        | file c => simp [createDirAll, hf] at h
        | dir sub =>
          simp only [createDirAll, hf] at h
          cases hc : createDirAll rest sub with
          | none => rw [hc] at h; simp at h
          | some sub2 =>
            rw [hc] at h
            simp at h
            subst h
            by_cases hmn : m = n
            · subst hmn
              simp only [prefixOf, if_pos rfl] at h1 h2
              simp only [walkFs, walk, find_set, if_pos rfl, hf, Option.some_bind]
              exact ih sub sub2 qrest hc h1 h2
            · simp [walkFs, walk, find_set, hmn]
      | none =>
        simp only [createDirAll, hf] at h
        cases hc : createDirAll rest [] with
        | none => rw [hc] at h; simp at h
        | some sub2 =>
          rw [hc] at h
          simp at h
          subst h
          have hfind : ∀ mm, Entries.find (fs ++ [(n, FsTree.dir sub2)]) mm
              = match Entries.find fs mm with
                | some t => some t
                | none => if n = mm then some (FsTree.dir sub2) else none := by
            intro mm
            rw [find_append]
            cases Entries.find fs mm <;> simp [Entries.find]
          by_cases hmn : m = n
          · subst hmn
            simp only [prefixOf, if_pos rfl] at h1 h2
            have hstep := ih [] sub2 qrest hc h1 h2
            cases qrest with
            | nil => simp [prefixOf] at h1
            | cons a b =>
              simp [walkFs, walk, find_append, hf, Entries.find]
              simpa [walkFs, walk, Entries.find] using hstep
          · have hne : ¬n = m := fun hh => hmn hh.symm
            simp only [walkFs, walk, hfind]
            cases hfm : Entries.find fs m <;> simp [hne]

theorem setNode_frame (p : FPath) (t : FsTree) (fs : Entries) (q : FPath)
    (h1 : prefixOf q p = false) (h2 : prefixOf p q = false) :
    walkFs (setNode p t fs) q = walkFs fs q := by
  induction p generalizing fs q with
  | nil => simp [prefixOf] at h2
  | cons n rest ih =>
    cases q with
    | nil => simp [prefixOf] at h1
    | cons m qrest =>
      cases rest with
      | nil =>
        by_cases hmn : m = n
        · subst hmn
          simp [prefixOf] at h2
        · simp [setNode, walkFs, walk, find_set, hmn]
      | cons a b =>
        cases hf : Entries.find fs n with
        | some u =>
          cases u with
          | dir sub =>
            by_cases hmn : m = n
            · subst hmn
              simp only [prefixOf, if_pos rfl] at h1 h2
              simp only [setNode, hf, walkFs, walk, find_set, if_pos rfl,
                Option.some_bind]
              exact ih sub qrest h1 h2
            · simp [setNode, hf, walkFs, walk, find_set, hmn]
          | file c => simp [setNode, hf]
        | none => simp [setNode, hf]

theorem setNode_self (p : FPath) (es : Entries) (fs : Entries) (u : FsTree)
    (h : walkFs fs p = some u) :
    walkFs (setNode p (FsTree.dir es) fs) p = some (FsTree.dir es) := by
  induction p generalizing fs u with
  | nil => simp [setNode, walkFs, walk]
  | cons n rest ih =>
    simp only [walkFs, walk] at h
    cases hf : Entries.find fs n with
    | none => rw [hf] at h; simp at h
    | some t =>
      rw [hf] at h
      simp only [Option.some_bind] at h
      cases rest with
      | nil => simp [setNode, walkFs, walk, find_set]
      | cons a b =>
        cases t with
        | file c => simp [walk] at h
        | dir sub =>
          simp only [setNode, hf, walkFs, walk, find_set, if_pos rfl,
            Option.some_bind]
          exact ih sub u (by simpa [walkFs] using h)

mutual

theorem copyEntry_ok_exact (n : Name) (t : FsTree) (d : Entries) (r : CopyResult)
    (d2 : Entries) (h : copyEntry n t d = (r, d2)) (hr : r = CopyResult.ok)
    (hwf : nodupT t = true) (hd : Entries.find d n = none) :
    d2 = d ++ [(n, t)] := by
  subst hr
  cases t with
  | file c =>
    simp only [copyEntry, hd] at h
    obtain ⟨h1, h2⟩ := Prod.mk.injEq .. |>.mp h
    rw [← h2, set_absent d n (FsTree.file c) hd]
  | dir sub =>
    by_cases hu : n.utf8
    · simp only [copyEntry, hu, if_true, hd] at h
      rcases hcs : copyEntries sub [] with ⟨rs, dsub2⟩
      rw [hcs] at h
      obtain ⟨h1, h2⟩ := Prod.mk.injEq .. |>.mp h
      have hsub : dsub2 = [] ++ sub := by
        apply copyEntries_ok_exact sub [] rs dsub2 hcs h1
        · simpa [nodupT] using hwf
        · intro e _; simp [Entries.find]
      rw [← h2, hsub]
      simp only [List.nil_append]
      rw [set_absent d n (FsTree.dir sub) hd]
    · simp only [copyEntry, hu, if_false] at h
      obtain ⟨h1, h2⟩ := Prod.mk.injEq .. |>.mp h
      cases h1

theorem copyEntries_ok_exact (src : Entries) (d : Entries) (r : CopyResult)
    (d2 : Entries) (h : copyEntries src d = (r, d2)) (hr : r = CopyResult.ok)
    (hwf : nodupE src = true) (hd : ∀ e ∈ src, Entries.find d e.1 = none) :
    d2 = d ++ src := by
  subst hr
  cases src with
  | nil =>
    simp only [copyEntries] at h
    obtain ⟨h1, h2⟩ := Prod.mk.injEq .. |>.mp h
    rw [← h2]
    simp
  | cons e rest =>
    obtain ⟨n, t⟩ := e
    simp only [nodupE, Bool.and_eq_true] at hwf
    obtain ⟨⟨hnd, hwt⟩, hwr⟩ := hwf
    simp only [copyEntries] at h
    rcases hce : copyEntry n t d with ⟨r1, dd⟩
    rw [hce] at h
    cases r1 with
    | ok =>
      have hdd : dd = d ++ [(n, t)] :=
        copyEntry_ok_exact n t d CopyResult.ok dd hce rfl hwt (hd (n, t) (by simp))
      have hrest : d2 = dd ++ rest := by
        apply copyEntries_ok_exact rest dd CopyResult.ok d2 h rfl hwr
        intro e he
        rw [hdd, find_append]
        have hfd : Entries.find d e.1 = none := hd e (by simp [he])
        rw [hfd]
        have hne : e.1 ≠ n := find_none_ne rest n (by
          cases hfind : Entries.find rest n with
          | none => rfl
          | some u => rw [hfind] at hnd; simp at hnd) e he
        have hne2 : ¬n = e.1 := fun hh => hne hh.symm
        simp [Entries.find, hne2]
      rw [hrest, hdd]
      simp
    | ioErr k =>
      obtain ⟨h1, h2⟩ := Prod.mk.injEq .. |>.mp h
      cases h1
    | panicked =>
      obtain ⟨h1, h2⟩ := Prod.mk.injEq .. |>.mp h
      cases h1

end

mutual

theorem copyEntry_no_panic (n : Name) (t : FsTree) (d : Entries)
    (hn : ∀ es, t = FsTree.dir es → n.utf8 = true)
    (ht : dirsUtf8T t = true) :
    (copyEntry n t d).1 ≠ CopyResult.panicked := by
  cases t with
  | file c =>
    simp only [copyEntry]
    cases hf : Entries.find d n with
    | none => simp
    | some u => cases u <;> simp
  | dir sub =>
    have hu : n.utf8 = true := hn sub rfl
    have hsub : dirsUtf8E sub = true := by simpa [dirsUtf8T] using ht
    cases hf : Entries.find d n with
    | none =>
      simp only [copyEntry, hu, if_true, hf]
      exact copyEntries_no_panic sub [] hsub
    | some u =>
      cases u with
      | file c => simp [copyEntry, hu, hf]
      | dir dsub =>
        simp only [copyEntry, hu, if_true, hf]
        exact copyEntries_no_panic sub dsub hsub

theorem copyEntries_no_panic (src : Entries) (d : Entries)
    (hs : dirsUtf8E src = true) :
    (copyEntries src d).1 ≠ CopyResult.panicked := by
  cases src with
  | nil => simp [copyEntries]
  | cons e rest =>
    obtain ⟨n, t⟩ := e
    simp only [dirsUtf8E, Bool.and_eq_true] at hs
    obtain ⟨⟨hn, ht⟩, hrest⟩ := hs
    simp only [copyEntries]
    rcases hce : copyEntry n t d with ⟨r1, dd⟩
    cases r1 with
    | ok => exact copyEntries_no_panic rest dd hrest
    | ioErr k => simp
    | panicked =>
      have := copyEntry_no_panic n t d (by
        intro es hte
        subst hte
        simpa using hn) ht
      rw [hce] at this
      simp at this

end

theorem copyEntry_find_none (n : Name) (t : FsTree) (d : Entries) (r : CopyResult)
    (d2 : Entries) (m : Name) (h : copyEntry n t d = (r, d2)) (hm : ¬m = n)
    (hd : Entries.find d m = none) : Entries.find d2 m = none := by
  cases t with
  | file c =>
    cases hf : Entries.find d n with
    | none =>
      simp only [copyEntry, hf] at h
      obtain ⟨h1, h2⟩ := Prod.mk.injEq .. |>.mp h
      rw [← h2, find_set]
      simp [hm, hd]
    | some u =>
      cases u with
      | file c2 =>
        simp only [copyEntry, hf] at h
        obtain ⟨h1, h2⟩ := Prod.mk.injEq .. |>.mp h
        rw [← h2, find_set]
        simp [hm, hd]
      | dir dsub =>
        simp only [copyEntry, hf] at h
        obtain ⟨h1, h2⟩ := Prod.mk.injEq .. |>.mp h
        rw [← h2]
        exact hd
  | dir sub =>
    by_cases hu : n.utf8
    · cases hf : Entries.find d n with
      | none =>
        simp only [copyEntry, hu, if_true, hf] at h
        obtain ⟨h1, h2⟩ := Prod.mk.injEq .. |>.mp h
        rw [← h2, find_set]
        simp [hm, hd]
      | some u =>
        cases u with
        | file c2 =>
          simp only [copyEntry, hu, if_true, hf] at h
          obtain ⟨h1, h2⟩ := Prod.mk.injEq .. |>.mp h
          rw [← h2]
          exact hd
        | dir dsub =>
          simp only [copyEntry, hu, if_true, hf] at h
          obtain ⟨h1, h2⟩ := Prod.mk.injEq .. |>.mp h
          rw [← h2, find_set]
          simp [hm, hd]
    · simp only [copyEntry, hu, if_false] at h
      obtain ⟨h1, h2⟩ := Prod.mk.injEq .. |>.mp h
      rw [← h2]
      exact hd

theorem copyEntries_find_none (src : Entries) (d : Entries) (r : CopyResult)
    (d2 : Entries) (m : Name) (h : copyEntries src d = (r, d2))
    (hs : Entries.find src m = none) (hd : Entries.find d m = none) :
    Entries.find d2 m = none := by
  induction src generalizing d with
  | nil =>
    simp only [copyEntries] at h
    obtain ⟨h1, h2⟩ := Prod.mk.injEq .. |>.mp h
    rw [← h2]
    exact hd
  | cons e rest ih =>
    obtain ⟨n, t⟩ := e
    have hne : ¬n = m := by
      intro hh
      rw [Entries.find, if_pos hh] at hs
      cases hs
    have hsrest : Entries.find rest m = none := by
      rw [Entries.find, if_neg hne] at hs
      exact hs
    simp only [copyEntries] at h
    rcases hce : copyEntry n t d with ⟨r1, dd⟩
    rw [hce] at h
    have hdd : Entries.find dd m = none :=
      copyEntry_find_none n t d r1 dd m hce (fun hh => hne hh.symm) hd
    cases r1 with
    | ok => exact ih dd h hsrest hdd
    | ioErr k =>
      obtain ⟨h1, h2⟩ := Prod.mk.injEq .. |>.mp h
      rw [← h2]
      exact hdd
    | panicked =>
      obtain ⟨h1, h2⟩ := Prod.mk.injEq .. |>.mp h
      rw [← h2]
      exact hdd

mutual

theorem allUtf8T_dirs (t : FsTree) (h : allUtf8T t = true) : dirsUtf8T t = true := by
  cases t with
  | file c => rfl
  | dir es => simpa [allUtf8T, dirsUtf8T] using allUtf8E_dirs es (by simpa [allUtf8T] using h)

theorem allUtf8E_dirs (es : List (Name × FsTree)) (h : allUtf8E es = true) :
    dirsUtf8E es = true := by
  cases es with
  | nil => rfl
  | cons e rest =>
    obtain ⟨n, t⟩ := e
    simp only [allUtf8E, Bool.and_eq_true] at h
    obtain ⟨⟨hn, ht⟩, hrest⟩ := h
    simp only [dirsUtf8E, Bool.and_eq_true]
    refine ⟨⟨?_, allUtf8T_dirs t ht⟩, allUtf8E_dirs rest hrest⟩
    cases t <;> simp [hn]

end

theorem mainRun_ok_shape (args : Cli) (fs : Entries) (t : String) (c i : Bool)
    (h : (mainRun args fs).1 = MainOutcome.ok t c i) :
    t = args.template ∧ c = (args.with_ci || args.with_infra) ∧ i = args.with_infra := by
  have hbool : (if args.with_infra then true else args.with_ci)
      = (args.with_ci || args.with_infra) := by
    cases args.with_infra <;> simp
  simp only [mainRun, composeOverlays] at h
  split at h
  · simp at h
  · split at h
    · simp at h
    · split at h
      · split at h
        · split at h
          · simp only [Prod.fst] at h
            obtain ⟨ht, hc, hi⟩ := MainOutcome.ok.inj h
            exact ⟨ht.symm, by rw [← hc, hbool], hi.symm⟩
          · simp only [expectOr] at h
            split at h <;> simp at h
        · simp only [expectOr] at h
          split at h <;> simp at h
      · simp only [expectOr] at h
        split at h <;> simp at h

/-- Claim C1: the Overlay Composer is the pure function sending
(withCi, withInfra) to (effectiveCi, effectiveInfra) with
effectiveInfra = withInfra and effectiveCi = withCi OR withInfra, and in
consequence every run with withInfra = true that reports a result reports
the CI overlay as applied, whatever the literal withCi input was. -/
theorem C1_overlay_composer :
    (∀ wc wi : Bool, composeOverlays wc wi = (wc || wi, wi)) ∧
    (∀ (args : Cli) (fs : Entries) (t : String) (c i : Bool),
      args.with_infra = true → (mainRun args fs).1 = MainOutcome.ok t c i →
      c = true) := by
  constructor
  · intro wc wi
    cases wi <;> cases wc <;> rfl
  · intro args fs t c i hinfra hrun
    obtain ⟨-, hc, -⟩ := mainRun_ok_shape args fs t c i hrun
    rw [hc, hinfra]
    simp

/-- Witness for C1: a concrete run with with_infra = true and with_ci =
false succeeds and reports the CI overlay as applied; the conclusion is
obtained by applying the C1 theorem at that run. -/
theorem C1_witness :
    cliInfraOnly.with_infra = true ∧
    (mainRun cliInfraOnly demoFs).1 = MainOutcome.ok "rest" true true ∧
    (true : Bool) = true :=
  ⟨rfl, rfl, C1_overlay_composer.2 cliInfraOnly demoFs "rest" true true rfl rfl⟩

/-- Claim C2: when the project path already exists, the run fails on the
guard with the AlreadyExists outcome, exit code 1, and the filesystem
(and in particular the whole tree under the project name) is returned
byte-for-byte unchanged. -/
theorem C2_guard_already_exists (args : Cli) (fs : Entries)
    (h : (walkFs fs [nm args.name]).isSome = true) :
    mainRun args fs = (MainOutcome.alreadyExists 1, fs) := by
  simp only [mainRun]
  rw [if_pos h]

/-- Witness for C2: a concrete colliding run. -/
theorem C2_witness :
    (walkFs demoFs [nm cliCollide.name]).isSome = true ∧
    mainRun cliCollide demoFs = (MainOutcome.alreadyExists 1, demoFs) :=
  ⟨rfl, C2_guard_already_exists cliCollide demoFs rfl⟩

/-- Claim C3 is wrong on the code: `fs::create_dir` at main.rs line 42 runs
before the template path is ever consulted, so a run with an unknown
template fails only inside `copy_dir_all` (read_dir on the missing
template directory), after the destination directory has been created.
The project directory `./myapp` did not exist before the run and is an
(empty) directory after the failure, contradicting the claim that the
destination is absent after a TemplateNotFound failure. -/
theorem C3_dest_created_before_template_check :
    walkFs demoFs [nm cliNoTemplate.name] = none ∧
    (mainRun cliNoTemplate demoFs).1 = MainOutcome.panicked "Failed to copy template" ∧
    walkFs (mainRun cliNoTemplate demoFs).2 [nm cliNoTemplate.name]
      = some (FsTree.dir []) :=
  ⟨rfl, rfl, rfl⟩

/-- Claim C7, counterexample: a missing source does not always yield
SourceNotFound. When the destination path is blocked by a file,
`create_dir_all` fails first and the copy reports that other io error,
although the source is missing as well. -/
theorem C7_counterexample :
    walkFs [(nm "blocked", FsTree.file [0])] [nm "missing"] = none ∧
    copy_dir_all [nm "missing"] [nm "blocked", nm "x"] [(nm "blocked", FsTree.file [0])]
      = (CopyResult.ioErr IoKind.ioOther, [(nm "blocked", FsTree.file [0])]) :=
  ⟨rfl, rfl⟩

/-- Claim C7 amended: when the creation of the destination succeeds and the
source is then missing or not a directory, the copy fails with
SourceNotFound, and the state reached before the failure (including the
freshly created destination chain) is returned as is: nothing is cleaned
up. -/
theorem C7_source_not_found (src dst : FPath) (fs fs1 : Entries)
    (hc : createDirAll dst fs = some fs1)
    (hs : ∀ es, walkFs fs1 src ≠ some (FsTree.dir es)) :
    copy_dir_all src dst fs = (CopyResult.ioErr IoKind.sourceNotFound, fs1) := by
  cases hw : walkFs fs1 src with
  | none => simp only [copy_dir_all, hc, hw]
  | some t =>
    cases t with
    | file c => simp only [copy_dir_all, hc, hw]
    | dir es => exact absurd hw (hs es)

/-- Witness for C7: copying from a missing source into a creatable fresh
destination fails with SourceNotFound and keeps the created destination. -/
theorem C7_witness :
    createDirAll [nm "newdir"] demoFs = some (demoFs ++ [(nm "newdir", FsTree.dir [])]) ∧
    copy_dir_all [nm "missing"] [nm "newdir"] demoFs
      = (CopyResult.ioErr IoKind.sourceNotFound, demoFs ++ [(nm "newdir", FsTree.dir [])]) :=
  ⟨rfl, C7_source_not_found [nm "missing"] [nm "newdir"] demoFs
      (demoFs ++ [(nm "newdir", FsTree.dir [])]) rfl
      (fun _ h => Option.noConfusion h)⟩

/-- Claim C9, counterexample: when a file blocks the destination path, the
call returns an error without having created the destination directory, so
the destination is not always created before the source is read. -/
theorem C9_counterexample :
    walkFs [(nm "f", FsTree.file [1])] [nm "absent"] = none ∧
    (copy_dir_all [nm "absent"] [nm "f", nm "d"] [(nm "f", FsTree.file [1])]).1
      = CopyResult.ioErr IoKind.ioOther ∧
    walkFs (copy_dir_all [nm "absent"] [nm "f", nm "d"] [(nm "f", FsTree.file [1])]).2
      [nm "f", nm "d"] = none :=
  ⟨rfl, rfl, rfl⟩

/-- Claim C9 amended: when the destination is absent but creatable and the
source is missing, `copy_dir_all` creates the destination (and missing
ancestors) before reading the source, returns the SourceNotFound error,
and the newly created empty destination directory stays on disk. -/
theorem C9_creates_dest_before_read (src dst : FPath) (fs fs1 : Entries)
    (hd : walkFs fs dst = none)
    (hc : createDirAll dst fs = some fs1)
    (hs : walkFs fs1 src = none) :
    copy_dir_all src dst fs = (CopyResult.ioErr IoKind.sourceNotFound, fs1) ∧
    walkFs fs1 dst = some (FsTree.dir []) := by
  constructor
  · simp only [copy_dir_all, hc, hs]
  · obtain ⟨d, hwd, hempty⟩ := createDirAll_makes dst fs fs1 hc
    rw [hwd, hempty hd]

/-- Witness for C9: a concrete missing source with a fresh destination. -/
theorem C9_witness :
    walkFs demoFs [nm "fresh"] = none ∧
    createDirAll [nm "fresh"] demoFs = some (demoFs ++ [(nm "fresh", FsTree.dir [])]) ∧
    walkFs (demoFs ++ [(nm "fresh", FsTree.dir [])]) [nm "absent2"] = none ∧
    (copy_dir_all [nm "absent2"] [nm "fresh"] demoFs
        = (CopyResult.ioErr IoKind.sourceNotFound, demoFs ++ [(nm "fresh", FsTree.dir [])]) ∧
      walkFs (demoFs ++ [(nm "fresh", FsTree.dir [])]) [nm "fresh"]
        = some (FsTree.dir [])) :=
  ⟨rfl, rfl, rfl,
    C9_creates_dest_before_read [nm "absent2"] [nm "fresh"] demoFs
      (demoFs ++ [(nm "fresh", FsTree.dir [])]) rfl rfl rfl⟩

/-- Claim C10, counterexample: a source tree containing an entry with a non
UTF-8 name does not make the copy panic when that entry is a file: the file
is copied as raw bytes and the run succeeds. -/
theorem C10_counterexample :
    allUtf8E [({ s := "x", utf8 := false }, FsTree.file [9])] = false ∧
    copy_dir_all [nm "src0"] [nm "out"] badFileFs
      = (CopyResult.ok,
         badFileFs ++
           [(nm "out", FsTree.dir [({ s := "x", utf8 := false }, FsTree.file [9])])]) :=
  ⟨rfl, rfl⟩

/-- Claim C10 amended: the `to_str().unwrap()` panic is decided by the
directory entries alone. (1) When every entry name in the source tree is
valid UTF-8 (the hypothesis covers all entries, as the claim words it),
the copy never panics. (2) A non UTF-8 directory name does panic (concrete
run). (3) A non UTF-8 file name alone does not: that copy succeeds. -/
theorem C10_panic_characterization :
    (∀ (src dst : FPath) (fs fs1 : Entries),
       createDirAll dst fs = some fs1 →
       (∀ es, walkFs fs1 src = some (FsTree.dir es) → allUtf8E es = true) →
       (copy_dir_all src dst fs).1 ≠ CopyResult.panicked) ∧
    (copy_dir_all [nm "src1"] [nm "out"] badDirFs).1 = CopyResult.panicked ∧
    (copy_dir_all [nm "src0"] [nm "out"] badFileFs).1 = CopyResult.ok := by
  refine ⟨?_, rfl, rfl⟩
  intro src dst fs fs1 hc hu
  simp only [copy_dir_all, hc]
  cases hw : walkFs fs1 src with
  | none => simp
  | some t =>
    cases t with
    | file c => simp
    | dir es =>
      cases hwd : walkFs fs1 dst with
      | none => simp
      | some td =>
        cases td with
        | file c2 => simp
        | dir d =>
          have hnp := copyEntries_no_panic es d (allUtf8E_dirs es (hu es hw))
          rcases hce : copyEntries es d with ⟨r, d2⟩
          rw [hce] at hnp
          simp only [hce]
          simpa using hnp

/-- Witness for C10: copying the demo template tree (all names UTF-8) never
panics. -/
theorem C10_witness :
    createDirAll [nm "out"] demoFs = some (demoFs ++ [(nm "out", FsTree.dir [])]) ∧
    (copy_dir_all [templatesDir, nm "rest"] [nm "out"] demoFs).1 ≠ CopyResult.panicked :=
  ⟨rfl, C10_panic_characterization.1 [templatesDir, nm "rest"] [nm "out"] demoFs
      (demoFs ++ [(nm "out", FsTree.dir [])]) rfl
      (fun es h => by cases h; decide)⟩

theorem walkFs_single (fs : Entries) (n : Name) :
    walkFs fs [n] = Entries.find fs n := by
  cases hf : Entries.find fs n <;> simp [walkFs, walk, hf]

theorem walkFs_extend (fs l : Entries) (n : Name) (p : FPath) (u : FsTree)
    (h : Entries.find fs n = some u) :
    walkFs (fs ++ l) (n :: p) = walkFs fs (n :: p) := by
  simp [walkFs, walk, find_append, h]

mutual

theorem copyEntry_success (n : Name) (t : FsTree) (d : Entries)
    (hwf : nodupT t = true) (hutf : dirsUtf8T t = true)
    (hn : ∀ es, t = FsTree.dir es → n.utf8 = true)
    (hd : Entries.find d n = none) :
    copyEntry n t d = (CopyResult.ok, d ++ [(n, t)]) := by
  cases t with
  | file c =>
    simp only [copyEntry, hd]
    rw [set_absent d n (FsTree.file c) hd]
  | dir sub =>
    have hu : n.utf8 = true := hn sub rfl
    have hce : copyEntries sub [] = (CopyResult.ok, sub) := by
      have := copyEntries_success sub []
        (by simpa [nodupT] using hwf)
        (by simpa [dirsUtf8T] using hutf)
        (fun e _ => rfl)
      simpa using this
    simp only [copyEntry, hu, if_true, hd, hce]
    rw [set_absent d n (FsTree.dir sub) hd]

theorem copyEntries_success (src : Entries) (d : Entries)
    (hwf : nodupE src = true) (hutf : dirsUtf8E src = true)
    (hd : ∀ e ∈ src, Entries.find d e.1 = none) :
    copyEntries src d = (CopyResult.ok, d ++ src) := by
  cases src with
  | nil => simp [copyEntries]
  | cons e rest =>
    obtain ⟨n, t⟩ := e
    simp only [nodupE, Bool.and_eq_true] at hwf
    obtain ⟨⟨hnd, hwt⟩, hwr⟩ := hwf
    simp only [dirsUtf8E, Bool.and_eq_true] at hutf
    obtain ⟨⟨hun, hut⟩, hur⟩ := hutf
    have hce : copyEntry n t d = (CopyResult.ok, d ++ [(n, t)]) := by
      apply copyEntry_success n t d hwt hut
      · intro es hte
        subst hte
        simpa using hun
      · exact hd (n, t) (by simp)
    have hrest : copyEntries rest (d ++ [(n, t)])
        = (CopyResult.ok, (d ++ [(n, t)]) ++ rest) := by
      apply copyEntries_success rest (d ++ [(n, t)]) hwr hur
      intro e he
      rw [find_append]
      have hfd : Entries.find d e.1 = none := hd e (by simp [he])
      rw [hfd]
      have hne : e.1 ≠ n := find_none_ne rest n (by
        cases hfind : Entries.find rest n with
        | none => rfl
        | some u => rw [hfind] at hnd; simp at hnd) e he
      have hne2 : ¬n = e.1 := fun hh => hne hh.symm
      simp [Entries.find, hne2]
    simp only [copyEntries, hce, hrest]
    simp

end

/-- Claim C5, counterexample: nothing stops a base template from carrying
its own top-level `.github` directory, and the base copy then writes into
the `.github` subdirectory of the project root. Scaffolding the `evil`
template with both overlay flags false leaves a file at
myapp/.github/ci.yml copied by the base materialization alone. -/
theorem C5_counterexample :
    cliEvil.with_ci = false ∧ cliEvil.with_infra = false ∧
    walkFs evilFs [nm "myapp"] = none ∧
    walkFs (mainRun cliEvil evilFs).2 [nm "myapp", githubDir, nm "ci.yml"]
      = some (FsTree.file [7]) :=
  ⟨rfl, rfl, rfl, rfl⟩

/-- Claim C5 amended: (1) when the base template tree has no top-level
entry named `.github` or `terraform` and the destination directory has
none either, the base materialization (even a failing one) leaves both
subdirectories of the project root absent; (2) an overlay materialization
into its fixed subdirectory changes no path that is neither an ancestor
nor a descendant of that destination, so overlay copies never write
outside their subdirectories. -/
theorem C5_disjointness :
    (∀ (src proj : FPath) (fs fs2 : Entries) (r : CopyResult) (tE dproj : Entries),
       walkFs fs proj = some (FsTree.dir dproj) →
       Entries.find dproj githubDir = none →
       Entries.find dproj terraformDir = none →
       walkFs fs src = some (FsTree.dir tE) →
       Entries.find tE githubDir = none →
       Entries.find tE terraformDir = none →
       copy_dir_all src proj fs = (r, fs2) →
       walkFs fs2 (proj ++ [githubDir]) = none ∧
       walkFs fs2 (proj ++ [terraformDir]) = none) ∧
    (∀ (src dst : FPath) (fs : Entries) (q : FPath),
       prefixOf q dst = false → prefixOf dst q = false →
       walkFs (copy_dir_all src dst fs).2 q = walkFs fs q) := by
  constructor
  · intro src proj fs fs2 r tE dproj hproj hpg hpt hsrc hsg hst hcopy
    have hca : createDirAll proj fs = some fs := createDirAll_of_dir proj fs dproj hproj
    rcases hce : copyEntries tE dproj with ⟨r0, d2⟩
    simp only [copy_dir_all, hca, hsrc, hproj, hce] at hcopy
    obtain ⟨h1, h2⟩ := Prod.mk.injEq .. |>.mp hcopy
    have hw2 : walkFs fs2 proj = some (FsTree.dir d2) := by
      rw [← h2]
      exact setNode_self proj d2 fs (FsTree.dir dproj) hproj
    have hfg : Entries.find d2 githubDir = none :=
      copyEntries_find_none tE dproj r0 d2 githubDir hce hsg hpg
    have hft : Entries.find d2 terraformDir = none :=
      copyEntries_find_none tE dproj r0 d2 terraformDir hce hst hpt
    constructor
    · have hsplit : walkFs fs2 (proj ++ [githubDir])
          = (walkFs fs2 proj).bind (walk [githubDir]) :=
        walk_append proj [githubDir] (FsTree.dir fs2)
      rw [hsplit, hw2]
      simp [walk, hfg]
    · have hsplit : walkFs fs2 (proj ++ [terraformDir])
          = (walkFs fs2 proj).bind (walk [terraformDir]) :=
        walk_append proj [terraformDir] (FsTree.dir fs2)
      rw [hsplit, hw2]
      simp [walk, hft]
  · intro src dst fs q h1 h2
    cases hc : createDirAll dst fs with
    | none => simp only [copy_dir_all, hc]
    | some fs1 =>
      have hframe1 : walkFs fs1 q = walkFs fs q :=
        createDirAll_frame dst fs fs1 q hc h1 h2
      simp only [copy_dir_all, hc]
      cases hw : walkFs fs1 src with
      | none => simpa using hframe1
      | some t =>
        cases t with
        | file c => simpa using hframe1
        | dir es =>
          cases hwd : walkFs fs1 dst with
          | none => simpa using hframe1
          | some td =>
            cases td with
            | file c2 => simpa using hframe1
            | dir d =>
              rcases hce : copyEntries es d with ⟨r0, d2⟩
              simp only [hce]
              rw [setNode_frame dst (FsTree.dir d2) fs1 q h1 h2, hframe1]

/-- Witness for C5: the base copy of the demo template into a fresh
project root leaves .github and terraform absent, and an overlay copy into
app/.github does not change an unrelated path. -/
theorem C5_witness :
    walkFs demoFs [nm "app"] = none ∧
    (walkFs (demoFs ++ [(nm "app", FsTree.dir [])]) [nm "app"]
        = some (FsTree.dir []) ∧
      walkFs (demoFs ++ [(nm "app", FsTree.dir [])]) [templatesDir, nm "rest"]
        = some (FsTree.dir demoTemplate) ∧
      (walkFs
          (copy_dir_all [templatesDir, nm "rest"] [nm "app"]
            (demoFs ++ [(nm "app", FsTree.dir [])])).2
          [nm "app", githubDir] = none ∧
        walkFs
          (copy_dir_all [templatesDir, nm "rest"] [nm "app"]
            (demoFs ++ [(nm "app", FsTree.dir [])])).2
          [nm "app", terraformDir] = none) ∧
      walkFs
          (copy_dir_all [extrasDir, githubDir] [nm "app", githubDir]
            (demoFs ++ [(nm "app", FsTree.dir [])])).2
          [templatesDir, nm "rest", nm "Cargo.toml"]
        = walkFs (demoFs ++ [(nm "app", FsTree.dir [])])
            [templatesDir, nm "rest", nm "Cargo.toml"]) := by
  refine ⟨rfl, rfl, rfl, ?_, ?_⟩
  · have := C5_disjointness.1 [templatesDir, nm "rest"] [nm "app"]
      (demoFs ++ [(nm "app", FsTree.dir [])])
      (copy_dir_all [templatesDir, nm "rest"] [nm "app"]
        (demoFs ++ [(nm "app", FsTree.dir [])])).2
      (copy_dir_all [templatesDir, nm "rest"] [nm "app"]
        (demoFs ++ [(nm "app", FsTree.dir [])])).1
      demoTemplate [] rfl rfl rfl rfl rfl rfl rfl
    simpa using this
  · exact C5_disjointness.2 [extrasDir, githubDir] [nm "app", githubDir]
      (demoFs ++ [(nm "app", FsTree.dir [])])
      [templatesDir, nm "rest", nm "Cargo.toml"] (by decide) (by decide)

/-- Claim C6: every failure aborts the run at once. The guard failure runs
nothing further (claim C2 theorem); here: a failing base copy makes main
panic with the state exactly as that copy left it (no CI or infra copy is
attempted, nothing rolled back); a failing CI copy likewise ends the run
before any infra copy; a failing infra copy ends the run keeping its
partial state. -/
theorem C6_fail_fast_no_rollback (args : Cli) (fs fs1 : Entries)
    (hg : walkFs fs [nm args.name] = none)
    (hcd : createDir [nm args.name] fs = some fs1) :
    (∀ r fs2,
       copy_dir_all [templatesDir, nm args.template] [nm args.name] fs1 = (r, fs2) →
       r ≠ CopyResult.ok →
       mainRun args fs = (expectOr "Failed to copy template" r, fs2)) ∧
    (∀ fs2 r fs3,
       copy_dir_all [templatesDir, nm args.template] [nm args.name] fs1
         = (CopyResult.ok, fs2) →
       (composeOverlays args.with_ci args.with_infra).1 = true →
       copy_dir_all [extrasDir, githubDir] [nm args.name, githubDir] fs2 = (r, fs3) →
       r ≠ CopyResult.ok →
       mainRun args fs = (expectOr "Failed to copy CI configs" r, fs3)) ∧
    (∀ fs2 fs3 r fs4,
       copy_dir_all [templatesDir, nm args.template] [nm args.name] fs1
         = (CopyResult.ok, fs2) →
       (if (composeOverlays args.with_ci args.with_infra).1 then
          copy_dir_all [extrasDir, githubDir] [nm args.name, githubDir] fs2
        else (CopyResult.ok, fs2)) = (CopyResult.ok, fs3) →
       args.with_infra = true →
       copy_dir_all [extrasDir, terraformDir] [nm args.name, terraformDir] fs3 = (r, fs4) →
       r ≠ CopyResult.ok →
       mainRun args fs = (expectOr "Failed to copy infra setup" r, fs4)) := by
  have hcond : ¬((walkFs fs [nm args.name]).isSome = true) := by
    rw [hg]
    simp
  refine ⟨?_, ?_, ?_⟩
  · intro r fs2 hbase hne
    simp only [mainRun, if_neg hcond, hcd, hbase]
  · intro fs2 r fs3 hbase hci hcopy hne
    simp only [composeOverlays] at hci
    simp only [mainRun, composeOverlays, if_neg hcond, hcd, hbase,
      List.singleton_append]
    rw [if_pos hci]
    simp only [hcopy]
  · intro fs2 fs3 r fs4 hbase hcistep hinfra hcopy hne
    simp only [composeOverlays] at hcistep
    simp only [mainRun, composeOverlays, if_neg hcond, hcd, hbase,
      List.singleton_append, hcistep]
    rw [if_pos hinfra]
    simp only [hcopy]

/-- Witness for C6: a failing base copy (missing template) ends the run
with a panic and the partially mutated state (the created project
directory) intact. -/
theorem C6_witness :
    walkFs demoFs [nm cliNoTemplate.name] = none ∧
    createDir [nm cliNoTemplate.name] demoFs
      = some (demoFs ++ [(nm "myapp", FsTree.dir [])]) ∧
    copy_dir_all [templatesDir, nm cliNoTemplate.template] [nm cliNoTemplate.name]
        (demoFs ++ [(nm "myapp", FsTree.dir [])])
      = (CopyResult.ioErr IoKind.sourceNotFound, demoFs ++ [(nm "myapp", FsTree.dir [])]) ∧
    mainRun cliNoTemplate demoFs
      = (expectOr "Failed to copy template" (CopyResult.ioErr IoKind.sourceNotFound),
         demoFs ++ [(nm "myapp", FsTree.dir [])]) :=
  ⟨rfl, rfl, rfl,
    (C6_fail_fast_no_rollback cliNoTemplate demoFs
        (demoFs ++ [(nm "myapp", FsTree.dir [])]) rfl rfl).1
      (CopyResult.ioErr IoKind.sourceNotFound)
      (demoFs ++ [(nm "myapp", FsTree.dir [])]) rfl
      (fun h => CopyResult.noConfusion h)⟩

/-- Claim C8: after the guard passes and the project directory is created,
main is exactly the sequential run of the ordered task list built from the
effective flags: the base template into the project root first, then zero,
one or two overlay tasks, the CI overlay into the fixed `.github`
subdirectory before the infrastructure overlay into the fixed `terraform`
subdirectory. The run reports success exactly when the task run succeeds,
the final filesystem states agree (also on failures), and there are at
most two overlay tasks. -/
theorem C8_ordered_overlay_tasks (args : Cli) (fs fs1 : Entries)
    (hg : walkFs fs [nm args.name] = none)
    (hcd : createDir [nm args.name] fs = some fs1) :
    ((mainRun args fs).1
        = MainOutcome.ok args.template
            (composeOverlays args.with_ci args.with_infra).1
            (composeOverlays args.with_ci args.with_infra).2
      ↔ (runTasks (scaffoldTasks args) fs1).1 = CopyResult.ok) ∧
    (mainRun args fs).2 = (runTasks (scaffoldTasks args) fs1).2 ∧
    (overlayTasks args.name (composeOverlays args.with_ci args.with_infra).1
        (composeOverlays args.with_ci args.with_infra).2).length ≤ 2 := by
  have hcond : ¬((walkFs fs [nm args.name]).isSome = true) := by
    rw [hg]
    simp
  rcases hb : copy_dir_all [templatesDir, nm args.template] [nm args.name] fs1
    with ⟨rb, fsb⟩
  cases hwi : args.with_infra with
  | true =>
    rcases hc2 : copy_dir_all [extrasDir, githubDir] [nm args.name, githubDir] fsb
      with ⟨rc, fsc⟩
    rcases hi2 : copy_dir_all [extrasDir, terraformDir] [nm args.name, terraformDir] fsc
      with ⟨ri, fsi⟩
    cases rb <;> cases rc <;> cases ri <;>
      simp [mainRun, scaffoldTasks, overlayTasks, runTasks, composeOverlays, hwi,
        if_neg hcond, hcd, hb, hc2, hi2, expectOr]
  | false =>
    cases hwc : args.with_ci with
    | true =>
      rcases hc2 : copy_dir_all [extrasDir, githubDir] [nm args.name, githubDir] fsb
        with ⟨rc, fsc⟩
      cases rb <;> cases rc <;>
        simp [mainRun, scaffoldTasks, overlayTasks, runTasks, composeOverlays, hwi,
          hwc, if_neg hcond, hcd, hb, hc2, expectOr]
    | false =>
      cases rb <;>
        simp [mainRun, scaffoldTasks, overlayTasks, runTasks, composeOverlays, hwi,
          hwc, if_neg hcond, hcd, hb, expectOr]

/-- Witness for C8: the theorem applied to a concrete run with both
overlays enabled; the task list has the base task first and the CI task
before the infrastructure task. -/
theorem C8_witness :
    walkFs demoFs [nm cliBoth.name] = none ∧
    createDir [nm cliBoth.name] demoFs = some (demoFs ++ [(nm "app2", FsTree.dir [])]) ∧
    ((mainRun cliBoth demoFs).1 = MainOutcome.ok "rest" true true ↔
      (runTasks (scaffoldTasks cliBoth) (demoFs ++ [(nm "app2", FsTree.dir [])])).1
        = CopyResult.ok) :=
  ⟨rfl, rfl,
    (C8_ordered_overlay_tasks cliBoth demoFs
      (demoFs ++ [(nm "app2", FsTree.dir [])]) rfl rfl).1⟩

/-- Claim C4: scaffolding with both overlay flags false from an existing
base template tree (with distinct entry names per directory and UTF-8
directory names, as any tree read from a real filesystem has) succeeds
with exit code 0, and the new project directory holds exactly the base
template tree: the same entries at the same relative paths, nothing else;
in particular every file of the template is present with identical bytes. -/
theorem C4_plain_scaffold_fidelity (args : Cli) (fs : Entries) (tE : Entries)
    (hci : args.with_ci = false) (hinfra : args.with_infra = false)
    (hg : walkFs fs [nm args.name] = none)
    (htpl : walkFs fs [templatesDir, nm args.template] = some (FsTree.dir tE))
    (hwf : nodupE tE = true) (hutf : dirsUtf8E tE = true) :
    (mainRun args fs).1 = MainOutcome.ok args.template false false ∧
    walkFs (mainRun args fs).2 [nm args.name] = some (FsTree.dir tE) ∧
    (∀ (p : FPath) (c : List Nat),
       walk p (FsTree.dir tE) = some (FsTree.file c) →
       walkFs (mainRun args fs).2 (nm args.name :: p) = some (FsTree.file c)) := by
  have hcond : ¬((walkFs fs [nm args.name]).isSome = true) := by
    rw [hg]
    simp
  have hfind : Entries.find fs (nm args.name) = none := by
    rw [← walkFs_single]
    exact hg
  have hcd : createDir [nm args.name] fs = some (fs ++ [(nm args.name, FsTree.dir [])]) := by
    simp [createDir, hfind]
  have hproj1 : walkFs (fs ++ [(nm args.name, FsTree.dir [])]) [nm args.name]
      = some (FsTree.dir []) := by
    rw [walkFs_single, find_append, hfind]
    simp [Entries.find]
  have hfindtpl : ∃ u, Entries.find fs templatesDir = some u := by
    cases hf : Entries.find fs templatesDir with
    | none =>
      rw [walkFs, walk, hf] at htpl
      simp at htpl
    | some u => exact ⟨u, rfl⟩
  obtain ⟨u, hu⟩ := hfindtpl
  have htpl1 : walkFs (fs ++ [(nm args.name, FsTree.dir [])])
      [templatesDir, nm args.template] = some (FsTree.dir tE) := by
    rw [walkFs_extend fs [(nm args.name, FsTree.dir [])] templatesDir
      [nm args.template] u hu]
    exact htpl
  have hca : createDirAll [nm args.name] (fs ++ [(nm args.name, FsTree.dir [])])
      = some (fs ++ [(nm args.name, FsTree.dir [])]) :=
    createDirAll_of_dir [nm args.name] (fs ++ [(nm args.name, FsTree.dir [])]) []
      hproj1
  have hce : copyEntries tE [] = (CopyResult.ok, tE) := by
    have := copyEntries_success tE [] hwf hutf (fun e _ => rfl)
    simpa using this
  have hcopy : copy_dir_all [templatesDir, nm args.template] [nm args.name]
      (fs ++ [(nm args.name, FsTree.dir [])])
      = (CopyResult.ok,
         setNode [nm args.name] (FsTree.dir tE) (fs ++ [(nm args.name, FsTree.dir [])])) := by
    simp only [copy_dir_all, hca, htpl1, hproj1, hce]
  have hmain : mainRun args fs
      = (MainOutcome.ok args.template false false,
         setNode [nm args.name] (FsTree.dir tE) (fs ++ [(nm args.name, FsTree.dir [])])) := by
    simp only [mainRun, composeOverlays, hci, hinfra, if_neg hcond, hcd, hcopy]
    rfl
  have hwproj : walkFs (setNode [nm args.name] (FsTree.dir tE)
        (fs ++ [(nm args.name, FsTree.dir [])])) [nm args.name]
      = some (FsTree.dir tE) :=
    setNode_self [nm args.name] tE (fs ++ [(nm args.name, FsTree.dir [])])
      (FsTree.dir []) hproj1
  refine ⟨by rw [hmain], by rw [hmain]; exact hwproj, ?_⟩
  intro p c hfile
  rw [hmain]
  have hsplit : walkFs (setNode [nm args.name] (FsTree.dir tE)
        (fs ++ [(nm args.name, FsTree.dir [])])) ([nm args.name] ++ p)
      = (walkFs (setNode [nm args.name] (FsTree.dir tE)
          (fs ++ [(nm args.name, FsTree.dir [])])) [nm args.name]).bind (walk p) :=
    walk_append [nm args.name] p _
  have : (nm args.name :: p) = [nm args.name] ++ p := rfl
  rw [this, hsplit, hwproj]
  simpa using hfile

/-- Witness for C4: the plain scaffold of the demo `rest` template into
`myapp` succeeds and reproduces the template tree exactly. -/
theorem C4_witness :
    cliPlain.with_ci = false ∧ cliPlain.with_infra = false ∧
    walkFs demoFs [nm cliPlain.name] = none ∧
    walkFs demoFs [templatesDir, nm cliPlain.template] = some (FsTree.dir demoTemplate) ∧
    nodupE demoTemplate = true ∧ dirsUtf8E demoTemplate = true ∧
    ((mainRun cliPlain demoFs).1 = MainOutcome.ok cliPlain.template false false ∧
      walkFs (mainRun cliPlain demoFs).2 [nm cliPlain.name]
        = some (FsTree.dir demoTemplate) ∧
      (∀ (p : FPath) (c : List Nat),
        walk p (FsTree.dir demoTemplate) = some (FsTree.file c) →
        walkFs (mainRun cliPlain demoFs).2 (nm cliPlain.name :: p)
          = some (FsTree.file c))) :=
  ⟨rfl, rfl, rfl, rfl, by decide, by decide,
    C4_plain_scaffold_fidelity cliPlain demoFs demoTemplate rfl rfl rfl rfl
      (by decide) (by decide)⟩
